import Mathlib

/-!
Shallow embedding of the discovery package of dhellmann/go-fork-diff:
resolution of a vanity Go import path to its repository root via
HTML meta go-import hints, following src/unnamed/part_000.
Strings are modelled as lists of characters; the network is modelled as an
explicit fetch function from a URL string to a token stream or an error.
-/

namespace Discovery

/-- Characters of a Go string, modelled as a list of characters. -/
abbrev Str := List Char

/-- Shorthand turning a Lean string literal into a character list. -/
def str (s : String) : Str := s.data

/-- Case-insensitive string comparison, modelling strings.EqualFold on
ASCII input. -/
def eqFold (a b : Str) : Bool := a.map Char.toLower == b.map Char.toLower

/-- Models strings.HasPrefix. -/
def hasPrefix (s pre : Str) : Bool := pre.isPrefixOf s

/-- Models pathPrefix from the source: whether sub is a prefix of s,
only considering entire path components. -/
def pathPrefix (s sub : Str) : Bool :=
  if !(hasPrefix s sub) then false
  else
    match s.drop sub.length with
    | [] => true
    | c :: _ => c == '/'

/-- Models the metaImport struct: one parsed meta go-import hint. -/
structure metaImport where
  Prefix : Str
  VCS : Str
  RepoRoot : Str
  deriving DecidableEq, Repr

/-- Error outcomes of matchGoImport: the ImportMismatchError carrying the
non-matching prefixes, or the multiple-matches error. -/
inductive MatchErr where
  | mismatch (importPath : Str) (mismatches : List Str)
  | multiple (importPath : Str)
  deriving DecidableEq, Repr

/-- Loop of matchGoImport over the remaining hints, carrying the current
match (if any, as in the source's index `match`) and the accumulated
non-matching prefixes. -/
def matchLoop (importPath : Str) :
    List metaImport → Option metaImport → List Str → Except MatchErr metaImport
  | [], none, mis => .error (.mismatch importPath mis)
  | [], some m, _ => .ok m
  | im :: rest, cur, mis =>
    if !( pathPrefix importPath im.Prefix) then
      matchLoop importPath rest cur (mis ++ [im.Prefix])
    else
      match cur with
      | some m =>
        if m.VCS == str "mod" && !(im.VCS == str "mod") then .ok m
        else .error (.multiple importPath)
      | none => matchLoop importPath rest (some im) mis

/-- Models matchGoImport: the hint from imports matching importPath, an
error if several match, an ImportMismatchError if none do. -/
def matchGoImport (imports : List metaImport) (importPath : Str) :
    Except MatchErr metaImport :=
  matchLoop importPath imports none []

/-- Models an attribute of an XML start tag (xml.Attr: local name, value). -/
structure XmlAttr where
  key : Str
  value : Str
  deriving DecidableEq, Repr

/-- Models the XML tokens delivered by the decoder's RawToken. -/
inductive Tok where
  | startElem (name : Str) (attrs : List XmlAttr)
  | endElem (name : Str)
  | otherTok
  deriving DecidableEq, Repr

/-- Models how the token stream ends after the listed tokens: a normal end
of input, or a stream error. -/
inductive StreamEnd where
  | eof
  | err (e : Str)
  deriving DecidableEq, Repr

/-- Models attrValue: the value of the first attribute whose key matches
the given name case-insensitively, or the empty string. -/
def attrValue (attrs : List XmlAttr) (name : Str) : Str :=
  match attrs with
  | [] => []
  | a :: rest => if eqFold a.key name then a.value else attrValue rest name

/-- Whitespace test used by strings.Fields. -/
def isSpace (c : Char) : Bool :=
  c == ' ' || c == '\t' || c == '\n' || c == '\r' || c == '\x0b' || c == '\x0c'

/-- Helper for fields: accumulates the current run of non-space
characters in reverse. -/
def fieldsAux : Str → Str → List Str
  | [], acc => if acc.isEmpty then [] else [acc.reverse]
  | c :: rest, acc =>
    if isSpace c then
      if acc.isEmpty then fieldsAux rest [] else acc.reverse :: fieldsAux rest []
    else fieldsAux rest (c :: acc)

/-- Models strings.Fields: splits around runs of whitespace. -/
def fields (s : Str) : List Str := fieldsAux s []

/-- Models the token loop of parseMetaGoImports: scans tokens, stops at a
body start tag or a head end tag, collects well-formed meta go-import
hints, and reports the stream error exactly as the source does (only when
the stream errors before any hint was collected). -/
def parseLoop : List Tok → StreamEnd → List metaImport → List metaImport × Option Str
  | [], fin, imports =>
    match fin with
    | .eof => (imports, none)
    | .err e => if imports.length == 0 then ([], some e) else (imports, none)
  | .startElem name attrs :: rest, fin, imports =>
    if eqFold name (str "body") then (imports, none)
    else if eqFold name (str "meta") then
      if attrValue attrs (str "name") == str "go-import" then
        match fields (attrValue attrs (str "content")) with
        | [p, v, r] => parseLoop rest fin (imports ++ [⟨p, v, r⟩])
        | _ => parseLoop rest fin imports
      else parseLoop rest fin imports
    else parseLoop rest fin imports
  | .endElem name :: rest, fin, imports =>
    if eqFold name (str "head") then (imports, none) else parseLoop rest fin imports
  | .otherTok :: rest, fin, imports => parseLoop rest fin imports

/-- Models parseMetaGoImports: the collected hints after the final filter
that drops every mod entry (the mod-preferring branch is commented out in
the source, so `have` stays nil), paired with the possible stream error. -/
def parseMetaGoImports (toks : List Tok) (fin : StreamEnd) :
    List metaImport × Option Str :=
  match parseLoop toks fin [] with
  | (_, some e) => ([], some e)
  | (imports, none) => (imports.filter (fun m => !(m.VCS == str "mod")), none)

/-- Models the fields of url.URL that urlForImportPath populates. -/
structure URL where
  Scheme : Str
  Host : Str
  Path : Str
  RawQuery : Str
  deriving DecidableEq, Repr

/-- Models urlForImportPath: splits the import path at the first slash into
host and path, rejects a host without a dot, defaults the path to "/", and
builds the discovery URL exactly as the source does. -/
def urlForImportPath (importPath : Str) : Except Str URL :=
  let slash := (importPath.findIdx? (fun c => c == '/')).getD importPath.length
  let host := importPath.take slash
  let path := importPath.drop slash
  if !(host.contains '.') then
    .error (str "import path does not begin with hostname")
  else
    let path := if path.length == 0 then str "/" else path
    .ok ⟨str "https", host, path, str "go-get=1"⟩

/-- Rendering of a discovery URL as url.String produces it for the URLs
built by urlForImportPath (non-empty scheme and host, path starting with
a slash, non-empty query, no characters needing escape). -/
def urlString (u : URL) : Str :=
  u.Scheme ++ str "://" ++ u.Host ++ u.Path ++ str "?" ++ u.RawQuery

/-- Rendering of a possibly nil URL pointer, as fmt's %s verb prints it. -/
def optUrlString : Option URL → Str
  | none => str "<nil>"
  | some u => urlString u

/-- Models errors.Wrap from github.com/pkg/errors: wrapping nil yields nil,
otherwise the message and a colon are prepended. -/
def wrap (err : Option Str) (msg : Str) : Option Str :=
  match err with
  | none => none
  | some e => some (msg ++ str ": " ++ e)

/-- The network, modelled as a function from the request URL string to
either a transport error or the token stream of the response body. -/
def Fetcher := Str → Except Str (List Tok × StreamEnd)

/-- Models metaImportsForPrefix: fetches the discovery page of an import
prefix and returns the Go triple (url, imports, err), where any component
can be missing exactly as in the source — in particular a successful fetch
with zero hints and no stream error returns (nil, nil, nil) because
errors.Wrap of a nil error is nil. -/
def metaImportsForPrefix (fetch : Fetcher) (importPrefix : Str) :
    Option URL × List metaImport × Option Str :=
  match urlForImportPath importPrefix with
  | .error e => (none, [], some e)
  | .ok url =>
    match fetch (urlString url) with
    | .error e => (none, [], wrap (some e) (str "unable to fetch request"))
    | .ok (toks, fin) =>
      let res := parseMetaGoImports toks fin
      if res.1.length == 0 then (none, [], wrap res.2 (str "found no import instructions"))
      else
        match res.2 with
        | some e => (some url, [], some e)
        | none => (some url, res.1, none)

/-- Control bytes rejected by url.Parse (stringContainsCTLByte). -/
def containsCTLByte (s : Str) : Bool :=
  s.any (fun c => decide (c.toNat < 0x20 ∨ c.toNat = 0x7f))

/-- Models strings.Cut: the part before the first occurrence of c, and the
part after it when c occurs. -/
def cutList (s : Str) (c : Char) : Str × Option Str :=
  match s.findIdx? (fun x => x == c) with
  | some i => (s.take i, some (s.drop (i + 1)))
  | none => (s, none)

/-- Loop of net/url's getScheme over the raw URL, tracking the position. -/
def getSchemeAux (raw : Str) : Str → Nat → Except Str (Str × Str)
  | [], _ => .ok ([], raw)
  | c :: rest, i =>
    if ('a' ≤ c ∧ c ≤ 'z') ∨ ('A' ≤ c ∧ c ≤ 'Z') then getSchemeAux raw rest (i + 1)
    else if ('0' ≤ c ∧ c ≤ '9') ∨ c = '+' ∨ c = '-' ∨ c = '.' then
      if i = 0 then .ok ([], raw) else getSchemeAux raw rest (i + 1)
    else if c = ':' then
      if i = 0 then .error (str "missing protocol scheme")
      else .ok (raw.take i, raw.drop (i + 1))
    else .ok ([], raw)

/-- Models net/url getScheme: the scheme before a valid ":" and the rest. -/
def getScheme (raw : Str) : Except Str (Str × Str) := getSchemeAux raw raw 0

/-- Result of parsing a URL string, with the fields validateRepoRoot and
its callers can observe. -/
structure ParsedURL where
  Scheme : Str
  Opaque : Str
  Host : Str
  Path : Str
  RawQuery : Str
  ForceQuery : Bool
  deriving DecidableEq, Repr

/-- Models the parse step of url.Parse with viaRequest false: the control
byte check, the "*" case, scheme extraction and lowering, the query cut,
the opaque form, the colon-in-first-segment rejection, and the authority
split; percent-escape and host validation of deeper components are not
modelled (they accept every string validateRepoRoot receives in this
program's claims). -/
def urlParseInner (rawURL : Str) : Except Str ParsedURL :=
  if containsCTLByte rawURL then
    .error (str "net/url: invalid control character in URL")
  else if rawURL == str "*" then .ok ⟨[], [], [], str "*", [], false⟩
  else
    match getScheme rawURL with
    | .error e => .error e
    | .ok (scheme0, rest0) =>
      let scheme := scheme0.map Char.toLower
      let cut :=
        if rest0.getLast? == some '?' && !(rest0.dropLast.contains '?') then
          (rest0.dropLast, ([] : Str), true)
        else
          match cutList rest0 '?' with
          | (a, some b) => (a, b, false)
          | (a, none) => (a, [], false)
      let rest := cut.1
      let rawQuery := cut.2.1
      let forceQuery := cut.2.2
      if !(hasPrefix rest (str "/")) && !(scheme.isEmpty) then
        .ok ⟨scheme, rest, [], [], rawQuery, forceQuery⟩
      else if !(hasPrefix rest (str "/")) && scheme.isEmpty
          && (cutList rest '/').1.contains ':' then
        .error (str "first path segment in URL cannot contain colon")
      else if (!(scheme.isEmpty) || !(hasPrefix rest (str "///")))
          && hasPrefix rest (str "//") then
        let authority := rest.drop 2
        match authority.findIdx? (fun c => c == '/') with
        | some i =>
          .ok ⟨scheme, [], authority.take i, authority.drop i, rawQuery, forceQuery⟩
        | none => .ok ⟨scheme, [], authority, [], rawQuery, forceQuery⟩
      else .ok ⟨scheme, [], [], rest, rawQuery, forceQuery⟩

/-- Models url.Parse: the fragment is cut off first, then the URL proper is
parsed. -/
def urlParse (rawURL : Str) : Except Str ParsedURL :=
  urlParseInner (cutList rawURL '#').1

/-- Models validateRepoRoot: an error when the root does not parse, parses
with an empty scheme, or uses the file scheme; nil otherwise. -/
def validateRepoRoot (repoRoot : Str) : Option Str :=
  match urlParse repoRoot with
  | .error e => some e
  | .ok url =>
    if url.Scheme == ([] : Str) then some (str "no scheme")
    else if url.Scheme == str "file" then some (str "file scheme disallowed")
    else none

/-- The disagreement error of the verification phase, as fmt.Errorf formats
it in the source. -/
def disagreeMsg (url : URL) (url2 : Option URL) (pre : Str) : Str :=
  urlString url ++ str " and " ++ optUrlString url2
    ++ str " disagree about go-import for " ++ pre

/-- Rendering of a matchGoImport error, following Error() of
ImportMismatchError and the multiple-match fmt.Errorf. -/
def matchErrString : MatchErr → Str
  | .mismatch p mis =>
    List.intercalate (str ", ") (mis.map (fun pre =>
      str "meta tag " ++ pre ++ str " did not match import path " ++ p))
  | .multiple p => str "multiple meta tags match import path \"" ++ p ++ str "\""

/-- Tail of RepoRootForImportDynamic (lines 93-97 of the source): validate
the matched repo root and return it unchanged. -/
def validateTail (url : URL) (mmi : metaImport) : Except Str Str :=
  match validateRepoRoot mmi.RepoRoot with
  | some e =>
    .error (urlString url ++ str ": invalid repo root \"" ++ mmi.RepoRoot
      ++ str "\": " ++ e)
  | none => .ok mmi.RepoRoot

/-- Verification phase of RepoRootForImportDynamic (lines 80-97 of the
source): when the matched prefix differs from the import path, re-fetch the
prefix's page and require the hint matched there for the import path to
agree with the first hint, then validate the root. -/
def repoRootVerify (fetch : Fetcher) (url : URL) (importPath : Str)
    (mmi : metaImport) : Except Str Str :=
  if !(mmi.Prefix == importPath) then
    let res := metaImportsForPrefix fetch mmi.Prefix
    match res.2.2 with
    | some e => .error e
    | none =>
      match matchGoImport res.2.1 importPath with
      | .error _ => .error (disagreeMsg url res.1 mmi.Prefix)
      | .ok metaImport2 =>
        if !(mmi == metaImport2) then .error (disagreeMsg url res.1 mmi.Prefix)
        else validateTail url mmi
  else validateTail url mmi

/-- Models RepoRootForImportDynamic: build the discovery URL, fetch it,
parse the hints, match the import path, cross-verify a non-exact prefix,
validate the root and return it. -/
def RepoRootForImportDynamic (fetch : Fetcher) (importPath : Str) :
    Except Str Str :=
  match urlForImportPath importPath with
  | .error e => .error e
  | .ok url =>
    match fetch (urlString url) with
    | .error e => .error (str "unable to fetch request" ++ str ": " ++ e)
    | .ok (toks, fin) =>
      let res := parseMetaGoImports toks fin
      match res.2 with
      | some e =>
        .error (str "could not get meta tag for import instructions" ++ str ": " ++ e)
      | none =>
        if res.1.length == 0 then
          .error (str "no import instructions found for import path")
        else
          match matchGoImport res.1 importPath with
          | .error me =>
            match me with
            | .mismatch _ _ =>
              .error (str "parse " ++ urlString url
                ++ str ": no go-import meta tags (" ++ matchErrString me ++ str ")")
            | .multiple _ =>
              .error (str "parse " ++ urlString url ++ str ": " ++ matchErrString me)
          | .ok mmi => repoRootVerify fetch url importPath mmi

/-- Document-order collection of hints as claim C4's spec sentence puts
it: for each meta start tag before the body-start or head-end boundary
whose name attribute equals the discovery keyword and whose content splits
into exactly three fields, a record (prefix, kind, repoRoot), in order. -/
def collectHints : List Tok → List metaImport
  | [] => []
  | .startElem name attrs :: rest =>
    if eqFold name (str "body") then []
    else if eqFold name (str "meta") && attrValue attrs (str "name") == str "go-import" then
      match fields (attrValue attrs (str "content")) with
      | [p, v, r] => ⟨p, v, r⟩ :: collectHints rest
      | _ => collectHints rest
    else collectHints rest
  | .endElem name :: rest =>
    if eqFold name (str "head") then [] else collectHints rest
  | .otherTok :: rest => collectHints rest

/-- Whether a token stops the scan of parseMetaGoImports: a body start tag
or a head end tag, names compared case-insensitively. -/
def isBoundary : Tok → Bool
  | .startElem name _ => eqFold name (str "body")
  | .endElem name => eqFold name (str "head")
  | .otherTok => false

theorem parseLoop_eof (toks : List Tok) :
    ∀ acc : List metaImport, parseLoop toks .eof acc = (acc ++ collectHints toks, none) := by
  induction toks with
  | nil => intro acc; simp [parseLoop, collectHints]
  | cons tok rest ih =>
    intro acc
    cases tok with
    | startElem name attrs =>
      by_cases hb : eqFold name (str "body") = true
      · simp [parseLoop, collectHints, hb]
      · by_cases hm : eqFold name (str "meta") = true
        · by_cases hn : attrValue attrs (str "name") == str "go-import"
          · rcases hf : fields (attrValue attrs (str "content")) with _ | ⟨p, _ | ⟨v, _ | ⟨r, _ | ⟨x, xs⟩⟩⟩⟩ <;>
              simp [parseLoop, collectHints, hb, hm, hn, hf, ih]
          · simp [parseLoop, collectHints, hb, hm, hn, ih]
        · simp [parseLoop, collectHints, hb, hm, ih]
    | endElem name =>
      by_cases hh : eqFold name (str "head") = true
      · simp [parseLoop, collectHints, hh]
      · simp [parseLoop, collectHints, hh, ih]
    | otherTok => simp [parseLoop, collectHints, ih]

theorem parseLoop_boundary (b : Tok) (hb : isBoundary b = true) (post : List Tok) :
    ∀ (toks : List Tok) (fin : StreamEnd) (acc : List metaImport),
      parseLoop (toks ++ b :: post) fin acc = parseLoop toks .eof acc := by
  intro toks
  induction toks with
  | nil =>
    intro fin acc
    cases b with
    | startElem name attrs =>
      simp only [isBoundary] at hb
      simp [parseLoop, hb]
    | endElem name =>
      simp only [isBoundary] at hb
      simp [parseLoop, hb]
    | otherTok => simp [isBoundary] at hb
  | cons tok rest ih =>
    intro fin acc
    cases tok with
    | startElem name attrs =>
      by_cases hbody : eqFold name (str "body") = true
      · simp [parseLoop, hbody]
      · by_cases hm : eqFold name (str "meta") = true
        · by_cases hn : attrValue attrs (str "name") == str "go-import"
          · rcases hf : fields (attrValue attrs (str "content")) with _ | ⟨p, _ | ⟨v, _ | ⟨r, _ | ⟨x, xs⟩⟩⟩⟩ <;>
              simp [parseLoop, hbody, hm, hn, hf, ih]
          · simp [parseLoop, hbody, hm, hn, ih]
        · simp [parseLoop, hbody, hm, ih]
    | endElem name =>
      by_cases hh : eqFold name (str "head") = true
      · simp [parseLoop, hh]
      · simp [parseLoop, hh, ih]
    | otherTok => simp [parseLoop, ih]

theorem pathPrefix_iff (s sub : Str) :
    pathPrefix s sub = true ↔ s = sub ∨ (sub ++ str "/").isPrefixOf s = true := by
  unfold pathPrefix hasPrefix
  by_cases hp : sub <+: s
  · obtain ⟨t, ht⟩ := hp
    subst ht
    have hpre : sub.isPrefixOf (sub ++ t) = true :=
      List.isPrefixOf_iff_prefix.mpr (List.prefix_append _ _)
    simp only [hpre, Bool.not_true, Bool.false_eq_true, if_false, List.drop_left]
    cases t with
    | nil => simp
    | cons c t' =>
      have hslash : str "/" = ['/'] := rfl
      simp only [List.isPrefixOf_iff_prefix, List.prefix_append_right_inj, hslash,
        List.cons_prefix_cons, List.nil_prefix, and_true, List.append_right_eq_self,
        beq_iff_eq]
      constructor
      · intro h; exact Or.inr h.symm
      · rintro (h | h)
        · exact absurd h (by simp)
        · exact h.symm
  · have hb : sub.isPrefixOf s = false := by
      rw [← Bool.not_eq_true, List.isPrefixOf_iff_prefix]; exact hp
    simp only [hb, Bool.not_false, if_true, Bool.false_eq_true, false_iff]
    rintro (rfl | h)
    · exact hp (List.prefix_refl _)
    · rw [List.isPrefixOf_iff_prefix] at h
      exact hp ((List.prefix_append sub (str "/")).trans h)

/-- Claim C2: a hint prefix matches the identifier exactly when the
identifier equals the prefix or starts with the prefix followed by a
slash; in particular example.org/pkg matches example.org/pkg/sub but not
example.org/pkgfoo. -/
theorem claim_C2_pathPrefix :
    (∀ s sub : Str,
      pathPrefix s sub = true ↔ s = sub ∨ (sub ++ str "/").isPrefixOf s = true)
    ∧ pathPrefix (str "example.org/pkg/sub") (str "example.org/pkg") = true
    ∧ pathPrefix (str "example.org/pkgfoo") (str "example.org/pkg") = false :=
  ⟨pathPrefix_iff, by decide, by decide⟩

/-- Claim C4 (amended): the parser collects, in document order, a record
for each discovery meta tag whose content has exactly three fields, and
the returned list is that collection with every record of kind mod
removed. -/
theorem claim_C4_parse_collects (toks : List Tok) :
    parseMetaGoImports toks .eof =
      ((collectHints toks).filter (fun m => !(m.VCS == str "mod")), none) := by
  unfold parseMetaGoImports
  rw [parseLoop_eof toks []]
  simp

/-- Claim C4 counterexample: a meta go-import tag whose content splits
into exactly three fields, yet the returned hint list omits it because its
kind field is mod. -/
theorem claim_C4_counterexample :
    fields (str "example.org/a mod https://x.com/a") =
      [str "example.org/a", str "mod", str "https://x.com/a"]
    ∧ parseMetaGoImports
        [Tok.startElem (str "meta")
          [⟨str "name", str "go-import"⟩,
           ⟨str "content", str "example.org/a mod https://x.com/a"⟩]] .eof =
      ([], none) := by
  constructor
  · rfl
  · rfl

/-- Claim C7: the scan stops at the first body start tag or head end tag
(case-insensitively), so nothing after that boundary — well-formed meta
tags included — affects the result. -/
theorem claim_C7_stops_at_boundary (pre post : List Tok) (fin : StreamEnd)
    (b : Tok) (hb : isBoundary b = true) :
    parseMetaGoImports (pre ++ b :: post) fin = parseMetaGoImports pre .eof := by
  unfold parseMetaGoImports
  rw [parseLoop_boundary b hb post pre fin []]

/-- Witness for claim C7: a well-formed meta go-import tag after the BODY
start tag is never recorded. -/
theorem claim_C7_witness :
    parseMetaGoImports
      [Tok.startElem (str "BODY") [],
       Tok.startElem (str "meta")
         [⟨str "name", str "go-import"⟩, ⟨str "content", str "a git b"⟩]] .eof =
      ([], none) :=
  (claim_C7_stops_at_boundary [] [Tok.startElem (str "meta")
      [⟨str "name", str "go-import"⟩, ⟨str "content", str "a git b"⟩]]
    .eof (Tok.startElem (str "BODY") []) (by decide)).trans (by decide)

/-- Selection policy exactly as claim C3 states it: the first matching
hint in document order is the current match; a later matching hint is
tolerated only when the current match is a mod hint and the later one is
a legacy hint; any other second match is ambiguous; zero matches fail
with the mismatch error carrying every non-matching prefix seen. -/
def matchGoImportPolicy (imports : List metaImport) (importPath : Str) :
    Except MatchErr metaImport :=
  match imports.dropWhile (fun im => !( pathPrefix importPath im.Prefix)) with
  | [] =>
    .error (.mismatch importPath
      ((imports.takeWhile (fun im => !( pathPrefix importPath im.Prefix))).map
        (fun im => im.Prefix)))
  | m :: rest =>
    match rest.find? (fun im => pathPrefix importPath im.Prefix) with
    | none => .ok m
    | some m2 =>
      if m.VCS == str "mod" && !(m2.VCS == str "mod") then .ok m
      else .error (.multiple importPath)

theorem matchLoop_some (p : Str) (m : metaImport) (rest : List metaImport) :
    ∀ mis : List Str,
      matchLoop p rest (some m) mis =
        match rest.find? (fun im => pathPrefix p im.Prefix) with
        | none => .ok m
        | some m2 =>
          if m.VCS == str "mod" && !(m2.VCS == str "mod") then .ok m
          else .error (.multiple p) := by
  induction rest with
  | nil => intro mis; simp [matchLoop]
  | cons im t ih =>
    intro mis
    by_cases h : pathPrefix p im.Prefix = true
    · simp [matchLoop, h, List.find?_cons]
    · have h' : pathPrefix p im.Prefix = false := by
        rw [← Bool.not_eq_true]; exact h
      simp [matchLoop, h', List.find?_cons, ih]

theorem matchLoop_none (p : Str) (l : List metaImport) :
    ∀ mis : List Str,
      matchLoop p l none mis =
        match l.dropWhile (fun im => !( pathPrefix p im.Prefix)) with
        | [] =>
          .error (.mismatch p
            (mis ++ (l.takeWhile (fun im => !( pathPrefix p im.Prefix))).map
              (fun im => im.Prefix)))
        | m :: rest =>
          match rest.find? (fun im => pathPrefix p im.Prefix) with
          | none => .ok m
          | some m2 =>
            if m.VCS == str "mod" && !(m2.VCS == str "mod") then .ok m
            else .error (.multiple p) := by
  induction l with
  | nil => intro mis; simp [matchLoop]
  | cons im t ih =>
    intro mis
    by_cases h : pathPrefix p im.Prefix = true
    · simp [matchLoop, h, List.dropWhile_cons, matchLoop_some]
    · have h' : pathPrefix p im.Prefix = false := by
        rw [← Bool.not_eq_true]; exact h
      simp only [matchLoop, h', Bool.not_false, if_true, List.dropWhile_cons,
        List.takeWhile_cons, Bool.false_eq_true, if_false, List.map_cons]
      rw [ih]
      simp

/-- Claim C3: matchGoImport implements exactly the selection policy of the
spec — first match wins, a later legacy match after a mod match is
ignored, any other second match is ambiguous, and no match yields the
mismatch error with all non-matching prefixes. -/
theorem claim_C3_match_policy (imports : List metaImport) (importPath : Str) :
    matchGoImport imports importPath = matchGoImportPolicy imports importPath := by
  unfold matchGoImport matchGoImportPolicy
  rw [matchLoop_none]
  simp

/-- Claim C5 (code bug): at the valid identifier example.org/pkg the
request builder returns a URL whose scheme is the non-empty string https,
although its own documentation says the scheme is left blank for the
fetcher to choose. -/
theorem claim_C5_scheme_set :
    urlForImportPath (str "example.org/pkg") =
      .ok ⟨str "https", str "example.org", str "/pkg", str "go-get=1"⟩
    ∧ str "https" ≠ ([] : Str) := by
  constructor
  · rfl
  · decide

theorem parse_single_meta_hit (attrs : List XmlAttr) (elemName p v r : Str)
    (helem : eqFold elemName (str "body") = false)
    (hmeta : eqFold elemName (str "meta") = true)
    (hname : (attrValue attrs (str "name") == str "go-import") = true)
    (hf : fields (attrValue attrs (str "content")) = [p, v, r])
    (hv : (v == str "mod") = false) :
    parseMetaGoImports [Tok.startElem elemName attrs] .eof =
      ([⟨p, v, r⟩], none) := by
  simp only [parseMetaGoImports, parseLoop, helem, hmeta, hname, hf]
  simp [List.filter, hv]

theorem parse_single_meta_miss (attrs : List XmlAttr) (elemName : Str)
    (helem : eqFold elemName (str "body") = false)
    (hmeta : eqFold elemName (str "meta") = true)
    (hname : (attrValue attrs (str "name") == str "go-import") = false) :
    parseMetaGoImports [Tok.startElem elemName attrs] .eof = ([], none) := by
  simp [parseMetaGoImports, parseLoop, helem, hmeta, hname]

/-- Claim C6 (amended): a meta tag is recognized as a discovery hint
exactly when the value of its name attribute equals go-import
case-sensitively; only the attribute key is compared case-insensitively,
so a NAME key with value go-import is recognized. -/
theorem claim_C6_keyword (nameVal content p v r : Str)
    (hf : fields content = [p, v, r]) (hv : (v == str "mod") = false) :
    (parseMetaGoImports
        [Tok.startElem (str "meta")
          [⟨str "name", nameVal⟩, ⟨str "content", content⟩]] .eof =
        ([⟨p, v, r⟩], none)
      ↔ nameVal = str "go-import")
    ∧ parseMetaGoImports
        [Tok.startElem (str "META")
          [⟨str "NAME", str "go-import"⟩, ⟨str "content", content⟩]] .eof =
        ([⟨p, v, r⟩], none) := by
  have hv1 : attrValue [⟨str "name", nameVal⟩, ⟨str "content", content⟩]
      (str "name") = nameVal := rfl
  have hc1 : attrValue [⟨str "name", nameVal⟩, ⟨str "content", content⟩]
      (str "content") = content := rfl
  have hv2 : attrValue [⟨str "NAME", str "go-import"⟩, ⟨str "content", content⟩]
      (str "name") = str "go-import" := rfl
  have hc2 : attrValue [⟨str "NAME", str "go-import"⟩, ⟨str "content", content⟩]
      (str "content") = content := rfl
  constructor
  · constructor
    · intro h
      by_contra hne
      have hname : (attrValue [⟨str "name", nameVal⟩, ⟨str "content", content⟩]
          (str "name") == str "go-import") = false := by
        rw [hv1]; simpa using hne
      rw [parse_single_meta_miss _ _ (by decide) (by decide) hname] at h
      have : ([] : List metaImport) = [⟨p, v, r⟩] := congrArg Prod.fst h
      exact absurd this (by simp)
    · intro h
      subst h
      exact parse_single_meta_hit _ _ p v r (by decide) (by decide)
        (by rw [hv1]; simp) (by rw [hc1]; exact hf) hv
  · exact parse_single_meta_hit _ _ p v r (by decide) (by decide)
      (by rw [hv2]; simp) (by rw [hc2]; exact hf) hv

/-- Witness for claim C6: with the exact keyword a three-field hint is
recorded, both for a lowercase and an uppercase attribute key. -/
theorem claim_C6_witness :
    parseMetaGoImports
      [Tok.startElem (str "meta")
        [⟨str "name", str "go-import"⟩, ⟨str "content", str "a git b"⟩]] .eof =
      ([⟨str "a", str "git", str "b"⟩], none) :=
  (claim_C6_keyword (str "go-import") (str "a git b") (str "a") (str "git")
    (str "b") (by decide) (by decide)).1.mpr rfl

/-- Claim C6 counterexample: a meta tag whose name attribute value is
GO-IMPORT (uppercase) is not recognized — the value comparison is
case-sensitive, contrary to the claim. -/
theorem claim_C6_counterexample :
    parseMetaGoImports
      [Tok.startElem (str "meta")
        [⟨str "name", str "GO-IMPORT"⟩, ⟨str "content", str "a git b"⟩]] .eof =
      ([], none) := by
  rfl

/-- Claim C8: whenever the part of the identifier before the first slash
(or all of it, without a slash) has no dot, resolution fails with the
malformed-identifier error for every possible network, i.e. before any
request is issued. -/
theorem claim_C8_no_dot_host (fetch : Fetcher) (p : Str)
    (h : '.' ∉ p.take ((p.findIdx? (fun c => c == '/')).getD p.length)) :
    RepoRootForImportDynamic fetch p =
      .error (str "import path does not begin with hostname") := by
  unfold RepoRootForImportDynamic urlForImportPath
  simp [h]

/-- Witness for claim C8: the dotless identifier badhost/pkg fails with
the malformed-identifier error under a network that answers nothing. -/
theorem claim_C8_witness :
    RepoRootForImportDynamic (fun _ => .error []) (str "badhost/pkg") =
      .error (str "import path does not begin with hostname") :=
  claim_C8_no_dot_host (fun _ => .error []) (str "badhost/pkg") (by decide)

/-- Network for the C9 resolution example: the discovery page of
example.org/pkg advertises the root https://example.org/pkg.git. -/
def fetchC9 : Fetcher := fun u =>
  if u == str "https://example.org/pkg?go-get=1" then
    .ok ([Tok.startElem (str "meta")
      [⟨str "name", str "go-import"⟩,
       ⟨str "content", str "example.org/pkg git https://example.org/pkg.git"⟩]],
      .eof)
  else .error (str "unreached")

/-- Claim C9: root validation fails exactly when the root does not parse,
parses with an empty scheme, or uses the file scheme; file:///tmp/x and
pkg.git are rejected, https://example.org/pkg.git is accepted and comes
back from resolution unchanged. -/
theorem claim_C9_validate_root :
    (∀ r : Str, validateRepoRoot r = none ↔
      ∃ u, urlParse r = .ok u ∧ u.Scheme ≠ ([] : Str) ∧ u.Scheme ≠ str "file")
    ∧ validateRepoRoot (str "file:///tmp/x") = some (str "file scheme disallowed")
    ∧ validateRepoRoot (str "pkg.git") = some (str "no scheme")
    ∧ validateRepoRoot (str "https://example.org/pkg.git") = none
    ∧ RepoRootForImportDynamic fetchC9 (str "example.org/pkg") =
        .ok (str "https://example.org/pkg.git") := by
  refine ⟨?_, by decide, by decide, by decide, by rfl⟩
  intro r
  unfold validateRepoRoot
  cases hu : urlParse r with
  | error e => simp
  | ok u =>
    by_cases h1 : u.Scheme = ([] : Str)
    · simp [h1]
    · by_cases h2 : u.Scheme = str "file"
      · simp [h1, h2, str]
      · simp [h1, h2]

/-- Claim C10: a verification fetch that succeeds with zero hints and no
stream error makes metaImportsForPrefix return the all-nil triple (a nil
error wrapped stays nil), so resolution fails with the disagree error for
the disputed prefix (with a nil second URL) instead of a no-hints error. -/
theorem claim_C10_nil_wrap (fetch : Fetcher) (p : Str) (url1 url2 : URL)
    (imports1 : List metaImport) (toks1 toks2 : List Tok)
    (fin1 fin2 : StreamEnd) (mmi : metaImport)
    (h1 : urlForImportPath p = .ok url1)
    (h2 : fetch (urlString url1) = .ok (toks1, fin1))
    (h3 : parseMetaGoImports toks1 fin1 = (imports1, none))
    (h4 : (imports1.length == 0) = false)
    (h5 : matchGoImport imports1 p = .ok mmi)
    (h6 : (mmi.Prefix == p) = false)
    (h7 : urlForImportPath mmi.Prefix = .ok url2)
    (h8 : fetch (urlString url2) = .ok (toks2, fin2))
    (h9 : parseMetaGoImports toks2 fin2 = ([], none)) :
    metaImportsForPrefix fetch mmi.Prefix = (none, [], none)
    ∧ RepoRootForImportDynamic fetch p =
        .error (disagreeMsg url1 none mmi.Prefix) := by
  have hmeta : metaImportsForPrefix fetch mmi.Prefix = (none, [], none) := by
    simp [metaImportsForPrefix, h7, h8, h9, wrap]
  refine ⟨hmeta, ?_⟩
  simp only [RepoRootForImportDynamic, h1, h2, h3, h4, Bool.false_eq_true,
    if_false, h5]
  simp only [repoRootVerify, h6, Bool.not_false, if_true, hmeta]
  simp [matchGoImport, matchLoop]

/-- Network for the C10 witness: the page of x.org/a names the prefix
x.org, whose own discovery page is hint-free. -/
def fetchC10 : Fetcher := fun u =>
  if u == str "https://x.org/a?go-get=1" then
    .ok ([Tok.startElem (str "meta")
      [⟨str "name", str "go-import"⟩,
       ⟨str "content", str "x.org git https://x.org/r.git"⟩]], .eof)
  else if u == str "https://x.org/?go-get=1" then .ok ([], .eof)
  else .error (str "unreached")

/-- Witness for claim C10: resolving x.org/a against fetchC10 fails with
the disagree error naming the first URL, a nil second URL and the prefix
x.org. -/
theorem claim_C10_witness :
    metaImportsForPrefix fetchC10 (str "x.org") = (none, [], none)
    ∧ RepoRootForImportDynamic fetchC10 (str "x.org/a") =
        .error (disagreeMsg ⟨str "https", str "x.org", str "/a", str "go-get=1"⟩
          none (str "x.org")) :=
  claim_C10_nil_wrap fetchC10 (str "x.org/a")
    ⟨str "https", str "x.org", str "/a", str "go-get=1"⟩
    ⟨str "https", str "x.org", str "/", str "go-get=1"⟩
    [⟨str "x.org", str "git", str "https://x.org/r.git"⟩]
    [Tok.startElem (str "meta")
      [⟨str "name", str "go-import"⟩,
       ⟨str "content", str "x.org git https://x.org/r.git"⟩]]
    [] .eof .eof
    ⟨str "x.org", str "git", str "https://x.org/r.git"⟩
    (by rfl) (by rfl) (by rfl) (by decide) (by rfl) (by decide)
    (by rfl) (by rfl) (by rfl)

/-- Claim C1 (amended): the verification phase is skipped, with no second
fetch, exactly when the matched prefix equals the identifier; otherwise a
second fetch of the prefix is made, a failing fetch surfaces its own
error, and the disagree (SecurityMismatch) error naming both URLs and the
prefix is produced exactly when the hints of the second page, matched
against the original identifier, fail to match or select a hint differing
in any field from the first one. -/
theorem claim_C1_verification (fetch fetch' : Fetcher) (url : URL) (p : Str)
    (mmi : metaImport) :
    ((mmi.Prefix == p) = true →
      repoRootVerify fetch url p mmi = validateTail url mmi
      ∧ repoRootVerify fetch url p mmi = repoRootVerify fetch' url p mmi)
    ∧ (∀ (ou2 : Option URL) (imports2 : List metaImport) (e : Str),
        (mmi.Prefix == p) = false →
        metaImportsForPrefix fetch mmi.Prefix = (ou2, imports2, some e) →
        repoRootVerify fetch url p mmi = .error e)
    ∧ (∀ (ou2 : Option URL) (imports2 : List metaImport) (me : MatchErr),
        (mmi.Prefix == p) = false →
        metaImportsForPrefix fetch mmi.Prefix = (ou2, imports2, none) →
        matchGoImport imports2 p = .error me →
        repoRootVerify fetch url p mmi = .error (disagreeMsg url ou2 mmi.Prefix))
    ∧ (∀ (ou2 : Option URL) (imports2 : List metaImport) (m2 : metaImport),
        (mmi.Prefix == p) = false →
        metaImportsForPrefix fetch mmi.Prefix = (ou2, imports2, none) →
        matchGoImport imports2 p = .ok m2 → (mmi == m2) = false →
        repoRootVerify fetch url p mmi = .error (disagreeMsg url ou2 mmi.Prefix))
    ∧ (∀ (ou2 : Option URL) (imports2 : List metaImport),
        (mmi.Prefix == p) = false →
        metaImportsForPrefix fetch mmi.Prefix = (ou2, imports2, none) →
        matchGoImport imports2 p = .ok mmi →
        repoRootVerify fetch url p mmi = validateTail url mmi) := by
  refine ⟨?_, ?_, ?_, ?_, ?_⟩
  · intro hEq
    unfold repoRootVerify
    rw [hEq]
    exact ⟨rfl, rfl⟩
  · intro ou2 imports2 e hNe hMeta
    simp [repoRootVerify, hNe, hMeta]
  · intro ou2 imports2 me hNe hMeta hMatch
    simp [repoRootVerify, hNe, hMeta, hMatch]
  · intro ou2 imports2 m2 hNe hMeta hMatch hDiff
    simp [repoRootVerify, hNe, hMeta, hMatch, hDiff]
  · intro ou2 imports2 hNe hMeta hMatch
    simp [repoRootVerify, hNe, hMeta, hMatch]

/-- Network for the C1 witness: the prefix's own page names a different
repository root than the first hint. -/
def fetchC1 : Fetcher := fun u =>
  if u == str "https://a.com/?go-get=1" then
    .ok ([Tok.startElem (str "meta")
      [⟨str "name", str "go-import"⟩,
       ⟨str "content", str "a.com git https://a.com/other.git"⟩]], .eof)
  else .error (str "unreached")

/-- Witness for claim C1: verifying a hint of prefix a.com for identifier
a.com/b against a prefix page whose hint has a different repository root
fails with the disagree error naming both URLs and the prefix. -/
theorem claim_C1_witness :
    repoRootVerify fetchC1 ⟨str "https", str "a.com", str "/b", str "go-get=1"⟩
      (str "a.com/b") ⟨str "a.com", str "git", str "https://a.com/r.git"⟩ =
    .error (disagreeMsg ⟨str "https", str "a.com", str "/b", str "go-get=1"⟩
      (some ⟨str "https", str "a.com", str "/", str "go-get=1"⟩) (str "a.com")) :=
  (claim_C1_verification fetchC1 fetchC1
      ⟨str "https", str "a.com", str "/b", str "go-get=1"⟩ (str "a.com/b")
      ⟨str "a.com", str "git", str "https://a.com/r.git"⟩).2.2.2.1
    (some ⟨str "https", str "a.com", str "/", str "go-get=1"⟩)
    [⟨str "a.com", str "git", str "https://a.com/other.git"⟩]
    ⟨str "a.com", str "git", str "https://a.com/other.git"⟩
    (by decide) (by rfl) (by rfl) (by decide)

/-- Network for the C1 counterexample: the first page answers, the
prefix's page is unreachable. -/
def fetchC1cx : Fetcher := fun u =>
  if u == str "https://a.com/b?go-get=1" then
    .ok ([Tok.startElem (str "meta")
      [⟨str "name", str "go-import"⟩,
       ⟨str "content", str "a.com git https://a.com/r.git"⟩]], .eof)
  else .error (str "boom")

/-- Claim C1 counterexample: when the second resolution fails in its fetch
the code returns the wrapped transport error as-is — an error that does
not even contain the word disagree — not the SecurityMismatch error naming
both discovery URLs that the claim requires for every failing second
resolution. -/
theorem claim_C1_counterexample :
    RepoRootForImportDynamic fetchC1cx (str "a.com/b") =
      .error (str "unable to fetch request: boom")
    ∧ ¬ List.IsInfix (str "disagree") (str "unable to fetch request: boom") := by
  constructor
  · rfl
  · decide

end Discovery
